import Mathlib

/-!
Verification of the libavfilter format-negotiation core (src/libavfilter/formats.h).

The repository provides the public header: the `AVFilterFormats` and
`AVFilterChannelLayouts` structures, the `FF_COUNT2LAYOUT` / `FF_LAYOUT2COUNT`
defines, and the documented contracts of the merge and reference-tracking
operations.  The two defines are embedded directly from the source; the
operation bodies (which live in formats.c, outside the provided sources) are
modelled from the specification, as marked on each definition.

Machine integers are modelled as `Nat` with explicit bounds where the 64-bit
width matters.  The heap is modelled as a `World`: a map from set identifiers
to live format sets and a map from backpointer-slot identifiers to the set
identifier the slot currently holds (or `none` for a null slot).
-/

/-- Embedding of `#define FF_COUNT2LAYOUT(c) (0x8000000000000000ULL | (c))`
from src/libavfilter/formats.h line 102: encode a channel count as a
channel layout by setting the most-significant bit of the 64-bit slot. -/
def FF_COUNT2LAYOUT (c : Nat) : Nat := 0x8000000000000000 ||| c

/-- Embedding of `#define FF_LAYOUT2COUNT(l)` from src/libavfilter/formats.h
lines 108-109: if the most-significant bit is set, return the low 31 bits,
otherwise (a real channel layout) return 0. -/
def FF_LAYOUT2COUNT (l : Nat) : Nat :=
  if l &&& 0x8000000000000000 ≠ 0 then l &&& 0x7FFFFFFF else 0

/-- Embedding of `struct AVFilterFormats` (src/libavfilter/formats.h lines
64-70).  `formats` is the value list (`nb_formats` is its length), `refcount`
the number of references, and `refs` the registry of backpointer slots,
identified here by slot identifiers. -/
structure AVFilterFormats where
  formats : List Int
  refcount : Nat
  refs : List Nat
deriving DecidableEq, Repr

/-- Embedding of `struct AVFilterChannelLayouts` (src/libavfilter/formats.h
lines 85-93).  `channel_layouts` is the list of 64-bit layout or count-encoded
entries (`nb_channel_layouts` is its length). -/
structure AVFilterChannelLayouts where
  channel_layouts : List Nat
  all_layouts : Bool
  all_counts : Bool
  refcount : Nat
  refs : List Nat
deriving DecidableEq, Repr

/-- A heap of format sets and backpointer slots.  `sets i = none` means no
live set has identifier `i` (unallocated or freed); `slots t = none` means
backpointer slot `t` currently holds a null pointer. -/
structure World where
  sets : Nat → Option AVFilterFormats
  slots : Nat → Option Nat

/-- Update one set entry of a world. -/
def World.setSet (w : World) (i : Nat) (v : Option AVFilterFormats) : World :=
  { w with sets := fun j => if j = i then v else w.sets j }

/-- Update one slot entry of a world. -/
def World.setSlot (w : World) (t : Nat) (v : Option Nat) : World :=
  { w with slots := fun u => if u = t then v else w.slots u }

/-- Intersection of two format lists, in `a`-order, as computed by the merge:
the elements of `a` that also occur in `b` (plain equality for formats and
sample rates). -/
def intersectFormats (fa fb : AVFilterFormats) : List Int :=
  fa.formats.filter (fun x => fb.formats.contains x)

/-- Modelled from the spec: `ff_can_merge_formats` / `ff_can_merge_samplerates`
(declared at src/libavfilter/formats.h lines 117-119, body in formats.c which
is not among the provided sources).  Pure predicate, no mutation: true iff the
intersection of the two value lists is non-empty. -/
def ff_can_merge_formats (fa fb : AVFilterFormats) : Bool :=
  !(intersectFormats fa fb).isEmpty

/-- Modelled from the spec: `retarget_all(set, new_set)` (the reference-moving
step of the merge in formats.c, not among the provided sources).  Every slot
registered in `src`'s registry is made to point at `dst` and moved into
`dst`'s registry; `dst.refcount` grows by `src.refcount`; `src.refs` becomes
empty (its refcount is left as is, now irrelevant). -/
def retarget_all (w : World) (src dst : Nat) : World :=
  match w.sets src, w.sets dst with
  | some fs, some fd =>
    { sets := fun j =>
        if j = dst then
          some { fd with refcount := fd.refcount + fs.refcount,
                         refs := fd.refs ++ fs.refs }
        else if j = src then some { fs with refs := [] }
        else w.sets j,
      slots := fun t => if fs.refs.contains t then some dst else w.slots t }
  | _, _ => w

/-- Free a set: its identifier no longer denotes a live set. -/
def freeSet (w : World) (i : Nat) : World := w.setSet i none

/-- Result of a merge: success returning the surviving set's identifier,
incompatible (C return value 0), or allocation failure (negative AVERROR). -/
inductive MergeRet where
  | success (surviving : Nat)
  | incompatible
  | allocFail
deriving DecidableEq, Repr

/-- Modelled from the spec: `ff_merge_formats` / `ff_merge_samplerates`
(declared at src/libavfilter/formats.h lines 133-137, body in formats.c which
is not among the provided sources).  Steps, following the spec: if the two
arguments are the same object, succeed trivially; otherwise compute the
intersection; if empty, return incompatible with nothing modified; reuse `a`
(then `b`) as the surviving set when its contents already equal the
intersection, otherwise allocate a fresh set `c` holding the intersection
(`allocOk` models whether that allocation succeeds; on failure nothing has
been modified); finally retarget every reference of each non-surviving set
onto the surviving one and free the non-surviving sets. -/
def ff_merge_formats (w : World) (a b : Nat) (c : Nat) (allocOk : Bool) :
    MergeRet × World :=
  if a = b then (.success a, w)
  else match w.sets a, w.sets b with
  | some fa, some fb =>
    let inter := intersectFormats fa fb
    if inter.isEmpty then (.incompatible, w)
    else if inter = fa.formats then
      (.success a, freeSet (retarget_all w b a) b)
    else if inter = fb.formats then
      (.success b, freeSet (retarget_all w a b) a)
    else if allocOk then
      let w1 := w.setSet c (some ⟨inter, 0, []⟩)
      let w2 := freeSet (retarget_all w1 a c) a
      let w3 := freeSet (retarget_all w2 b c) b
      (.success c, w3)
    else (.allocFail, w)
  | _, _ => (.allocFail, w)

/-- Modelled from the spec: `ff_formats_ref` (declared at
src/libavfilter/formats.h line 285, body in formats.c which is not among the
provided sources).  Records the slot in the set's registry, makes the slot
point at the set and increments the refcount; returns 0 on success.  On
allocation failure (`allocOk = false`, the registry could not grow) or a null
set, returns AVERROR(ENOMEM) = -12 with nothing modified. -/
def ff_formats_ref (w : World) (f : Nat) (t : Nat) (allocOk : Bool) :
    Int × World :=
  match w.sets f with
  | none => (-12, w)
  | some fs =>
    if allocOk then
      (0, (w.setSet f (some { fs with refcount := fs.refcount + 1,
                                      refs := fs.refs ++ [t] })).setSlot t (some f))
    else (-12, w)

/-- Modelled from the spec: `ff_formats_unref` (declared at
src/libavfilter/formats.h line 302, body in formats.c which is not among the
provided sources).  If the slot is null, no-op.  Otherwise remove the slot
from the referenced set's registry, decrement its refcount, free the set when
the refcount reaches 0, and in every case null the slot. -/
def ff_formats_unref (w : World) (t : Nat) : World :=
  match w.slots t with
  | none => w
  | some f =>
    match w.sets f with
    | none => w.setSlot t none
    | some fs =>
      let fs2 : AVFilterFormats :=
        { fs with refcount := fs.refcount - 1, refs := fs.refs.erase t }
      ((w.setSet f (if fs2.refcount = 0 then none else some fs2)).setSlot t none)

/-- Modelled from the spec: `ff_formats_changeref` (declared at
src/libavfilter/formats.h line 316, body in formats.c which is not among the
provided sources).  Copies the old slot's pointer into the new slot, clears
the old slot, and replaces the registry entry for the old slot with the new
slot; when the old slot is null there is no registry entry to move and
nothing happens. -/
def ff_formats_changeref (w : World) (o n : Nat) : World :=
  match w.slots o with
  | none => w
  | some f =>
    match w.sets f with
    | none => ((w.setSlot n (some f)).setSlot o none)
    | some fs =>
      let fs2 : AVFilterFormats :=
        { fs with refs := fs.refs.map (fun t => if t = o then n else t) }
      (((w.setSet f (some fs2)).setSlot n (some f)).setSlot o none)

/-- An entry of a channel-layout value list is count-encoded (unknown
disposition) when its most-significant bit is set, exactly the test of
`FF_LAYOUT2COUNT` (src/libavfilter/formats.h line 108). -/
def isCountEncoded (x : Nat) : Bool := x &&& 0x8000000000000000 ≠ 0

/-- Modelled from the spec: the acceptance relation of a channel-layout set
used by the channel-layout merge (formats.c, not among the provided sources).
A set accepts an entry iff `all_counts` is set (any layout or count), or
`all_layouts` is set and the entry is a real layout with known disposition,
or the entry is explicitly listed. -/
def acceptsEntry (l : AVFilterChannelLayouts) (x : Nat) : Bool :=
  l.all_counts || (l.all_layouts && !(isCountEncoded x)) || l.channel_layouts.contains x

/-- Modelled from the spec: `ff_all_channel_layouts` (declared at
src/libavfilter/formats.h line 144, body in formats.c which is not among the
provided sources).  An empty list with `all_layouts = 1`: any channel layout
with known disposition, no references yet. -/
def ff_all_channel_layouts : AVFilterChannelLayouts :=
  ⟨[], true, false, 0, []⟩

/-- Modelled from the spec: `ff_all_channel_counts` (declared at
src/libavfilter/formats.h line 154, body in formats.c which is not among the
provided sources).  Any channel layout or count: `all_layouts = all_counts = 1`,
empty list, no references yet. -/
def ff_all_channel_counts : AVFilterChannelLayouts :=
  ⟨[], true, true, 0, []⟩

/-- Modelled from the spec: `ff_make_format64_list` (declared at
src/libavfilter/formats.h line 157, body in formats.c which is not among the
provided sources).  Builds an explicit set from a supplied array; both
wildcard flags are clear. -/
def ff_make_format64_list (fmts : List Nat) : AVFilterChannelLayouts :=
  ⟨fmts, false, false, 0, []⟩

/-- Modelled from the spec: `ff_add_channel_layout` (declared at
src/libavfilter/formats.h line 209, body in formats.c which is not among the
provided sources).  Appends a value to the list, allocating a fresh explicit
set when the target is null. -/
def ff_add_channel_layout (l : Option AVFilterChannelLayouts) (layout : Nat) :
    AVFilterChannelLayouts :=
  match l with
  | none => ⟨[layout], false, false, 0, []⟩
  | some cl => { cl with channel_layouts := cl.channel_layouts ++ [layout] }

/-- Modelled from the spec: the value-level part of `ff_merge_channel_layouts`
(declared at src/libavfilter/formats.h lines 133-134, body in formats.c which
is not among the provided sources).  The merged wildcard flags are the logical
AND of the inputs' flags; an explicit entry survives iff it is accepted by
both sides (explicitly listed in both, or listed in one and admitted by the
other's wildcard flag).  The result is `none` (incompatible) when the merged
set admits nothing: no wildcard flag and no surviving explicit entry. -/
def ff_merge_channel_layouts (a b : AVFilterChannelLayouts) :
    Option AVFilterChannelLayouts :=
  let fl := a.all_layouts && b.all_layouts
  let fc := a.all_counts && b.all_counts
  let entries := a.channel_layouts.filter (fun x => acceptsEntry b x) ++
    b.channel_layouts.filter
      (fun x => acceptsEntry a x && !(a.channel_layouts.contains x))
  if fl || fc || !entries.isEmpty then some ⟨entries, fl, fc, 0, []⟩ else none

/-- The documented invariant of `AVFilterChannelLayouts` (src/libavfilter/
formats.h lines 77-80): with `all_layouts = 1` the explicit list must be
empty, and with `all_counts = 1` additionally `all_layouts = 1`. -/
abbrev layoutsInv (l : AVFilterChannelLayouts) : Prop :=
  (l.all_layouts = true → l.channel_layouts = []) ∧
  (l.all_counts = true → l.all_layouts = true ∧ l.channel_layouts = [])

/-- The reference-tracking invariant of the structure (src/libavfilter/
formats.h lines 68-69 and the spec): for every live set, `refcount` equals
the number of registry entries, the registry has no duplicate slot, and every
registered slot currently points at that set; conversely every non-null slot
is registered in the registry of the (live) set it points at. -/
def World.inv (w : World) : Prop :=
  (∀ i fs, w.sets i = some fs →
      fs.refcount = fs.refs.length ∧ fs.refs.Nodup ∧
      ∀ t, t ∈ fs.refs → w.slots t = some i) ∧
  (∀ t i, w.slots t = some i → ∃ fs, w.sets i = some fs ∧ t ∈ fs.refs)

/-- Example set: formats 1 and 2, one reference, held by slot 0. -/
def fsA : AVFilterFormats := ⟨[1, 2], 1, [0]⟩

/-- Example set: formats 2 and 3, one reference, held by slot 1. -/
def fsB : AVFilterFormats := ⟨[2, 3], 1, [1]⟩

/-- Example world: set 0 is `fsA` (referenced by slot 0), set 1 is `fsB`
(referenced by slot 1); identifiers 2 and up are unallocated, slots 2 and up
are null. -/
def w0 : World :=
  { sets := fun i => if i = 0 then some fsA else if i = 1 then some fsB else none,
    slots := fun t => if t = 0 then some 0 else if t = 1 then some 1 else none }

/-! ## Bit-level lemmas for the count/layout encoding -/

lemma land_two_pow_sub_one (x n : Nat) : x &&& (2 ^ n - 1) = x % 2 ^ n := by
  apply Nat.eq_of_testBit_eq
  intro i
  rw [Nat.testBit_land, Nat.testBit_two_pow_sub_one, Nat.testBit_mod_two_pow,
    Bool.and_comm]

lemma encode_low_bits (c : Nat) :
    (0x8000000000000000 ||| c) &&& 0x7FFFFFFF = c % 2 ^ 31 := by
  have h31 : (0x7FFFFFFF : Nat) = 2 ^ 31 - 1 := by norm_num
  have h63 : (0x8000000000000000 : Nat) = 2 ^ 63 := by norm_num
  rw [h31, h63]
  apply Nat.eq_of_testBit_eq
  intro i
  rw [Nat.testBit_land, Nat.testBit_lor, Nat.testBit_two_pow,
    Nat.testBit_two_pow_sub_one, Nat.testBit_mod_two_pow]
  rcases Nat.lt_or_ge i 31 with h | h
  · have h2 : 63 ≠ i := by omega
    simp [h, h2]
  · have h2 : ¬ i < 31 := by omega
    simp [h2]

lemma encode_msb (c : Nat) :
    (0x8000000000000000 ||| c) &&& 0x8000000000000000 ≠ 0 := by
  have h63 : (0x8000000000000000 : Nat) = 2 ^ 63 := by norm_num
  rw [h63, Nat.and_two_pow, Nat.testBit_lor, Nat.testBit_two_pow]
  simp

lemma real_layout_msb (l : Nat) (hl : l < 2 ^ 63) :
    l &&& 0x8000000000000000 = 0 := by
  have h63 : (0x8000000000000000 : Nat) = 2 ^ 63 := by norm_num
  rw [h63, Nat.and_two_pow, Nat.testBit_lt_two_pow hl]
  simp

lemma decode_encode (c : Nat) :
    FF_LAYOUT2COUNT (FF_COUNT2LAYOUT c) = c % 2 ^ 31 := by
  rw [FF_LAYOUT2COUNT, FF_COUNT2LAYOUT, if_pos (encode_msb c), encode_low_bits]

lemma decode_real (l : Nat) (hl : l < 2 ^ 63) : FF_LAYOUT2COUNT l = 0 := by
  rw [FF_LAYOUT2COUNT, if_neg]
  simp [real_layout_msb l hl]

/-- C6: for every channel count `c` (a count fits in the 31 bits the decoder
reads back), decoding the encoded value yields `c`; decoding any real layout
(most-significant bit clear, i.e. below 2^63) yields 0; and the encoding sets
bit 63 of the 64-bit slot while keeping the count in the low 31 bits. -/
theorem c6_count_layout_roundtrip (c l : Nat) (hc : c < 2 ^ 31)
    (hl : l < 2 ^ 63) :
    FF_LAYOUT2COUNT (FF_COUNT2LAYOUT c) = c ∧
    FF_LAYOUT2COUNT l = 0 ∧
    (FF_COUNT2LAYOUT c).testBit 63 = true ∧
    FF_COUNT2LAYOUT c % 2 ^ 31 = c := by
  refine ⟨?_, decode_real l hl, ?_, ?_⟩
  · rw [decode_encode, Nat.mod_eq_of_lt hc]
  · rw [FF_COUNT2LAYOUT]
    have h63 : (0x8000000000000000 : Nat) = 2 ^ 63 := by norm_num
    rw [h63, Nat.testBit_lor, Nat.testBit_two_pow]
    simp
  · rw [← land_two_pow_sub_one]
    have h31 : (2 ^ 31 - 1 : Nat) = 0x7FFFFFFF := by norm_num
    rw [FF_COUNT2LAYOUT, h31, encode_low_bits, Nat.mod_eq_of_lt hc]

/-- Witness for C6 at count 2 and the stereo layout bitmask 3. -/
theorem c6_count_layout_roundtrip_witness :
    (2 : Nat) < 2 ^ 31 ∧ (3 : Nat) < 2 ^ 63 ∧
    (FF_LAYOUT2COUNT (FF_COUNT2LAYOUT 2) = 2 ∧
     FF_LAYOUT2COUNT 3 = 0 ∧
     (FF_COUNT2LAYOUT 2).testBit 63 = true ∧
     FF_COUNT2LAYOUT 2 % 2 ^ 31 = 2) :=
  ⟨by norm_num, by norm_num, c6_count_layout_roundtrip 2 3 (by norm_num) (by norm_num)⟩

/-- C10: for every 64-bit value `c`, decoding the encoding of `c` yields the
low 31 bits of `c` (the encoder ORs the full value under the tag bit, the
decoder masks with 0x7FFFFFFF); in particular encoding 0 decodes to 0, the
same result as decoding any real (most-significant-bit-clear) layout. -/
theorem c10_roundtrip_low31 (c : Nat) (hc : c < 2 ^ 64) :
    FF_LAYOUT2COUNT (FF_COUNT2LAYOUT c) = c % 2 ^ 31 ∧
    FF_LAYOUT2COUNT (FF_COUNT2LAYOUT 0) = 0 ∧
    ∀ l, l < 2 ^ 63 → FF_LAYOUT2COUNT l = 0 := by
  refine ⟨decode_encode c, ?_, fun l hl => decode_real l hl⟩
  rw [decode_encode, Nat.zero_mod]

/-- Witness for C10 at `c = 2^31 + 5`, whose low 31 bits are 5. -/
theorem c10_roundtrip_low31_witness :
    (2 ^ 31 + 5 : Nat) < 2 ^ 64 ∧
    (FF_LAYOUT2COUNT (FF_COUNT2LAYOUT (2 ^ 31 + 5)) = (2 ^ 31 + 5) % 2 ^ 31 ∧
     FF_LAYOUT2COUNT (FF_COUNT2LAYOUT 0) = 0 ∧
     ∀ l, l < 2 ^ 63 → FF_LAYOUT2COUNT l = 0) :=
  ⟨by norm_num, c10_roundtrip_low31 (2 ^ 31 + 5) (by norm_num)⟩

/-! ## World helper lemmas -/

lemma retarget_free_sets {w : World} {src dst : Nat} {fs fd : AVFilterFormats}
    (hs : w.sets src = some fs) (hd : w.sets dst = some fd) (j : Nat) :
    (freeSet (retarget_all w src dst) src).sets j =
      if j = src then none
      else if j = dst then
        some ⟨fd.formats, fd.refcount + fs.refcount, fd.refs ++ fs.refs⟩
      else w.sets j := by
  simp only [freeSet, World.setSet, retarget_all, hs, hd]
  by_cases h1 : j = src <;> by_cases h2 : j = dst <;> simp [h1, h2]

lemma retarget_free_slots {w : World} {src dst : Nat} {fs fd : AVFilterFormats}
    (hs : w.sets src = some fs) (hd : w.sets dst = some fd) (t : Nat) :
    (freeSet (retarget_all w src dst) src).slots t =
      if t ∈ fs.refs then some dst else w.slots t := by
  simp only [freeSet, World.setSet, retarget_all, hs, hd]
  by_cases h : t ∈ fs.refs <;> simp [h]

lemma inv_retarget_free {w : World} (hinv : w.inv) {src dst : Nat}
    {fs fd : AVFilterFormats} (hs : w.sets src = some fs)
    (hd : w.sets dst = some fd) (hne : src ≠ dst) :
    (freeSet (retarget_all w src dst) src).inv := by
  obtain ⟨hfwd, hrev⟩ := hinv
  obtain ⟨hrc_s, hnd_s, hpt_s⟩ := hfwd src fs hs
  obtain ⟨hrc_d, hnd_d, hpt_d⟩ := hfwd dst fd hd
  have hdisj : ∀ t, t ∈ fd.refs → t ∉ fs.refs := by
    intro t htd hts
    have h1 := hpt_s t hts
    have h2 := hpt_d t htd
    rw [h1] at h2
    exact hne (Option.some.inj h2)
  constructor
  · intro j fsj hj
    rw [retarget_free_sets hs hd j] at hj
    by_cases h1 : j = src
    · simp [h1] at hj
    by_cases h2 : j = dst
    · rw [if_neg h1, if_pos h2] at hj
      injection hj with hj
      subst hj
      refine ⟨?_, ?_, ?_⟩
      · simp [hrc_s, hrc_d]
      · exact List.nodup_append.2 ⟨hnd_d, hnd_s, hdisj⟩
      · intro t ht
        rw [retarget_free_slots hs hd t]
        rcases List.mem_append.1 ht with h | h
        · by_cases hmem : t ∈ fs.refs
          · simp [hmem, h2]
          · simp only [hmem, if_false]
            rw [hpt_d t h, h2]
        · simp [h, h2]
    · simp only [h1, if_false, h2] at hj
      obtain ⟨hrc, hnd, hpt⟩ := hfwd j fsj hj
      refine ⟨hrc, hnd, ?_⟩
      intro t ht
      rw [retarget_free_slots hs hd t]
      have hnm : t ∉ fs.refs := by
        intro hmem
        have hx := hpt_s t hmem
        have hy := hpt t ht
        rw [hx] at hy
        exact h1 (Option.some.inj hy).symm
      simp only [hnm, if_false]
      exact hpt t ht
  · intro t i hti
    rw [retarget_free_slots hs hd t] at hti
    by_cases hmem : t ∈ fs.refs
    · simp only [hmem, if_true] at hti
      have hi : i = dst := (Option.some.inj hti).symm
      subst hi
      refine ⟨⟨fd.formats, fd.refcount + fs.refcount, fd.refs ++ fs.refs⟩, ?_,
        List.mem_append.2 (Or.inr hmem)⟩
      rw [retarget_free_sets hs hd i]
      simp [Ne.symm hne]
    · simp only [hmem, if_false] at hti
      obtain ⟨fsi, hfsi, htmem⟩ := hrev t i hti
      by_cases h1 : i = src
      · subst h1
        rw [hs] at hfsi
        cases hfsi
        exact absurd htmem hmem
      by_cases h2 : i = dst
      · subst h2
        rw [hd] at hfsi
        injection hfsi with hfsi
        subst hfsi
        refine ⟨⟨fd.formats, fd.refcount + fs.refcount, fd.refs ++ fs.refs⟩, ?_,
          List.mem_append.2 (Or.inl htmem)⟩
        rw [retarget_free_sets hs hd i]
        simp [h1]
      · refine ⟨fsi, ?_, htmem⟩
        rw [retarget_free_sets hs hd i]
        simp [h1, h2, hfsi]

lemma mem_intersectFormats (fa fb : AVFilterFormats) (x : Int) :
    x ∈ intersectFormats fa fb ↔ x ∈ fa.formats ∧ x ∈ fb.formats := by
  simp [intersectFormats]

lemma merge_self (w : World) (a c : Nat) (ok : Bool) :
    ff_merge_formats w a a c ok = (.success a, w) := by
  simp [ff_merge_formats]

lemma merge_incompat {w : World} {a b : Nat} (c : Nat) (ok : Bool)
    {fa fb : AVFilterFormats} (hab : a ≠ b) (ha : w.sets a = some fa)
    (hb : w.sets b = some fb)
    (hempty : (intersectFormats fa fb).isEmpty = true) :
    ff_merge_formats w a b c ok = (.incompatible, w) := by
  simp [ff_merge_formats, hab, ha, hb, hempty]

lemma merge_reuse_a {w : World} {a b : Nat} (c : Nat) (ok : Bool)
    {fa fb : AVFilterFormats} (hab : a ≠ b) (ha : w.sets a = some fa)
    (hb : w.sets b = some fb)
    (heq : intersectFormats fa fb = fa.formats) (hne : fa.formats ≠ []) :
    ff_merge_formats w a b c ok = (.success a, freeSet (retarget_all w b a) b) := by
  have hempty : ¬ (intersectFormats fa fb).isEmpty = true := by
    rw [List.isEmpty_iff, heq]
    exact hne
  simp [ff_merge_formats, hab, ha, hb, hempty, heq, hne]

lemma merge_reuse_b {w : World} {a b : Nat} (c : Nat) (ok : Bool)
    {fa fb : AVFilterFormats} (hab : a ≠ b) (ha : w.sets a = some fa)
    (hb : w.sets b = some fb)
    (hna : intersectFormats fa fb ≠ fa.formats)
    (heq : intersectFormats fa fb = fb.formats) (hne : fb.formats ≠ []) :
    ff_merge_formats w a b c ok = (.success b, freeSet (retarget_all w a b) a) := by
  have hempty : ¬ (intersectFormats fa fb).isEmpty = true := by
    rw [List.isEmpty_iff, heq]
    exact hne
  have h2 : fb.formats ≠ fa.formats := heq ▸ hna
  simp [ff_merge_formats, hab, ha, hb, hempty, hna, heq, hne, h2]

lemma merge_fresh {w : World} {a b : Nat} (c : Nat)
    {fa fb : AVFilterFormats} (hab : a ≠ b) (ha : w.sets a = some fa)
    (hb : w.sets b = some fb)
    (hempty : ¬ (intersectFormats fa fb).isEmpty = true)
    (hna : intersectFormats fa fb ≠ fa.formats)
    (hnb : intersectFormats fa fb ≠ fb.formats) :
    ff_merge_formats w a b c true =
      (.success c,
        freeSet (retarget_all (freeSet (retarget_all
          (w.setSet c (some ⟨intersectFormats fa fb, 0, []⟩)) a c) a) b c) b) := by
  simp [ff_merge_formats, hab, ha, hb, hempty, hna, hnb]

lemma merge_alloc_fail {w : World} {a b : Nat} (c : Nat)
    {fa fb : AVFilterFormats} (hab : a ≠ b) (ha : w.sets a = some fa)
    (hb : w.sets b = some fb)
    (hempty : ¬ (intersectFormats fa fb).isEmpty = true)
    (hna : intersectFormats fa fb ≠ fa.formats)
    (hnb : intersectFormats fa fb ≠ fb.formats) :
    ff_merge_formats w a b c false = (.allocFail, w) := by
  simp [ff_merge_formats, hab, ha, hb, hempty, hna, hnb]

/-- C2: if the merge returns Incompatible or an allocation failure, the value
collections, refcounts and refs registries of every set (in particular of `a`
and `b`) and the contents of every backpointer slot are exactly as they were
before the call: no partial mutation is observable on any failure path. -/
theorem c2_no_mutation_on_failure (w : World) (a b c : Nat) (ok : Bool)
    (hr : (ff_merge_formats w a b c ok).1 = MergeRet.incompatible ∨
          (ff_merge_formats w a b c ok).1 = MergeRet.allocFail) :
    (∀ j, (ff_merge_formats w a b c ok).2.sets j = w.sets j) ∧
    (∀ t, (ff_merge_formats w a b c ok).2.slots t = w.slots t) := by
  have hw : (ff_merge_formats w a b c ok).2 = w := by
    by_cases hab : a = b
    · subst hab
      rw [merge_self] at hr
      rcases hr with h | h <;> exact absurd h (by simp)
    · cases hA : w.sets a with
      | none => simp [ff_merge_formats, hab, hA]
      | some fa =>
        cases hB : w.sets b with
        | none => simp [ff_merge_formats, hab, hA, hB]
        | some fb =>
          rcases hr with h | h <;>
          · simp only [ff_merge_formats, hab, hA, hB, if_false, if_neg hab] at h ⊢
            split_ifs at h ⊢ <;> simp_all
  rw [hw]
  exact ⟨fun _ => rfl, fun _ => rfl⟩

lemma merge_success_char {w : World} {a b c : Nat} {fa fb : AVFilterFormats}
    (ha : w.sets a = some fa) (hb : w.sets b = some fb) (hc : w.sets c = none)
    (hab : a ≠ b) (hcm : ff_can_merge_formats fa fb = true)
    (hpa : ∀ t, w.slots t = some a → t ∈ fa.refs)
    (hpb : ∀ t, w.slots t = some b → t ∈ fb.refs) :
    ∃ s w2, ff_merge_formats w a b c true = (.success s, w2) ∧
      ∃ fsv, w2.sets s = some fsv ∧
        fsv.formats = intersectFormats fa fb ∧
        fsv.refcount = fa.refcount + fb.refcount ∧
        (∀ t, (w.slots t = some a ∨ w.slots t = some b) →
          w2.slots t = some s) := by
  have hac : a ≠ c := by
    intro h
    rw [h, hc] at ha
    cases ha
  have hbc : b ≠ c := by
    intro h
    rw [h, hc] at hb
    cases hb
  have hempty : ¬ (intersectFormats fa fb).isEmpty = true := by
    simpa [ff_can_merge_formats] using hcm
  by_cases hIa : intersectFormats fa fb = fa.formats
  · have hfa : fa.formats ≠ [] := by
      rw [← hIa]
      intro h
      exact hempty (List.isEmpty_iff.2 h)
    refine ⟨a, _, merge_reuse_a c true hab ha hb hIa hfa,
      ⟨fa.formats, fa.refcount + fb.refcount, fa.refs ++ fb.refs⟩, ?_, hIa.symm,
      rfl, ?_⟩
    · rw [retarget_free_sets hb ha a]
      simp [hab]
    · intro t ht
      rw [retarget_free_slots hb ha t]
      rcases ht with h | h
      · by_cases hm : t ∈ fb.refs <;> simp [hm, h]
      · simp [hpb t h]
  · by_cases hIb : intersectFormats fa fb = fb.formats
    · have hfb : fb.formats ≠ [] := by
        rw [← hIb]
        intro h
        exact hempty (List.isEmpty_iff.2 h)
      refine ⟨b, _, merge_reuse_b c true hab ha hb hIa hIb hfb,
        ⟨fb.formats, fb.refcount + fa.refcount, fb.refs ++ fa.refs⟩, ?_, hIb.symm,
        Nat.add_comm _ _, ?_⟩
      · rw [retarget_free_sets ha hb b]
        simp [Ne.symm hab]
      · intro t ht
        rw [retarget_free_slots ha hb t]
        rcases ht with h | h
        · simp [hpa t h]
        · by_cases hm : t ∈ fa.refs <;> simp [hm, h]
    · have h1a : (w.setSet c (some ⟨intersectFormats fa fb, 0, []⟩)).sets a = some fa := by
        simp [World.setSet, hac, ha]
      have h1c : (w.setSet c (some ⟨intersectFormats fa fb, 0, []⟩)).sets c =
          some ⟨intersectFormats fa fb, 0, []⟩ := by
        simp [World.setSet]
      have hmb : (freeSet (retarget_all
          (w.setSet c (some ⟨intersectFormats fa fb, 0, []⟩)) a c) a).sets b = some fb := by
        rw [retarget_free_sets h1a h1c b]
        simp [Ne.symm hab, hbc, World.setSet, hb]
      have hmc : (freeSet (retarget_all
          (w.setSet c (some ⟨intersectFormats fa fb, 0, []⟩)) a c) a).sets c =
          some ⟨intersectFormats fa fb, 0 + fa.refcount, [] ++ fa.refs⟩ := by
        rw [retarget_free_sets h1a h1c c]
        simp [Ne.symm hac]
      refine ⟨c, _, merge_fresh c hab ha hb hempty hIa hIb,
        ⟨intersectFormats fa fb, 0 + fa.refcount + fb.refcount,
          ([] ++ fa.refs) ++ fb.refs⟩, ?_, rfl, by simp, ?_⟩
      · rw [retarget_free_sets hmb hmc c]
        simp [Ne.symm hbc]
      · intro t ht
        rw [retarget_free_slots hmb hmc t]
        have hmidslot : ∀ u, (freeSet (retarget_all
            (w.setSet c (some ⟨intersectFormats fa fb, 0, []⟩)) a c) a).slots u =
            if u ∈ fa.refs then some c else w.slots u := by
          intro u
          rw [retarget_free_slots h1a h1c u]
          rfl
        rcases ht with h | h
        · have hta := hpa t h
          by_cases hm : t ∈ fb.refs <;> simp [hm, hmidslot, hta]
        · simp [hpb t h]

lemma inv_points_mem {w : World} (hinv : w.inv) {i : Nat} {fs : AVFilterFormats}
    (hi : w.sets i = some fs) :
    ∀ t, w.slots t = some i → t ∈ fs.refs := by
  intro t h
  obtain ⟨fs2, hfs2, hmem⟩ := hinv.2 t i h
  rw [hi] at hfs2
  injection hfs2 with hfs2
  subst hfs2
  exact hmem

theorem w0_inv : w0.inv := by
  constructor
  · intro i fs h
    simp only [w0] at h
    split_ifs at h with h0 h1
    · subst h0
      injection h with h
      subst h
      refine ⟨rfl, by decide, ?_⟩
      intro t ht
      simp [fsA] at ht
      subst ht
      rfl
    · subst h1
      injection h with h
      subst h
      refine ⟨rfl, by decide, ?_⟩
      intro t ht
      simp [fsB] at ht
      subst ht
      rfl
  · intro t i h
    simp only [w0] at h
    split_ifs at h with h0 h1
    · subst h0
      injection h with h
      subst h
      exact ⟨fsA, rfl, by simp [fsA]⟩
    · subst h1
      injection h with h
      subst h
      exact ⟨fsB, rfl, by simp [fsB]⟩

/-- C1: for format sets `a` and `b` with nonempty value collections and
positive refcounts (in a well-formed world, with a fresh identifier available
so allocation is not a concern), the merge succeeds if and only if
`ff_can_merge_formats` holds of the two sets, and on success the surviving
set's value collection is exactly the intersection of the two original value
collections. -/
theorem c1_merge_succeeds_iff_can_merge (w : World) (a b c : Nat)
    (fa fb : AVFilterFormats) (hinv : w.inv)
    (ha : w.sets a = some fa) (hb : w.sets b = some fb) (hc : w.sets c = none)
    (hfa : fa.formats ≠ []) (hfb : fb.formats ≠ [])
    (hra : 0 < fa.refcount) (hrb : 0 < fb.refcount) :
    ((∃ s, (ff_merge_formats w a b c true).1 = MergeRet.success s) ↔
      ff_can_merge_formats fa fb = true) ∧
    (∀ s w2, ff_merge_formats w a b c true = (.success s, w2) →
      ∃ fsv, w2.sets s = some fsv ∧
        ∀ x : Int, x ∈ fsv.formats ↔ (x ∈ fa.formats ∧ x ∈ fb.formats)) := by
  have hpa := inv_points_mem hinv ha
  have hpb := inv_points_mem hinv hb
  by_cases hab : a = b
  · subst hab
    have hfab : fa = fb := by
      rw [ha] at hb
      exact Option.some.inj hb
    subst hfab
    have hself : intersectFormats fa fa = fa.formats := by
      refine List.filter_eq_self.2 ?_
      intro x hx
      simpa using hx
    constructor
    · constructor
      · intro _
        simp [ff_can_merge_formats, hself, hfa]
      · intro _
        exact ⟨a, by rw [merge_self]⟩
    · intro s w2 hm
      rw [merge_self] at hm
      injection hm with h1 h2
      injection h1 with h1
      subst h1
      subst h2
      exact ⟨fa, ha, fun x => by simp⟩
  · by_cases hcm : ff_can_merge_formats fa fb = true
    · obtain ⟨s, w2, hm, fsv, hsets, hfmt, hrc2, hslots⟩ :=
        merge_success_char ha hb hc hab hcm hpa hpb
      constructor
      · exact ⟨fun _ => hcm, fun _ => ⟨s, by rw [hm]⟩⟩
      · intro s2 w3 hm2
        rw [hm] at hm2
        injection hm2 with h1 h2
        injection h1 with h1
        subst h1
        subst h2
        refine ⟨fsv, hsets, ?_⟩
        intro x
        rw [hfmt, mem_intersectFormats]
    · have hempty : (intersectFormats fa fb).isEmpty = true := by
        simpa [ff_can_merge_formats] using hcm
      have hmi := merge_incompat c true hab ha hb hempty
      constructor
      · constructor
        · intro ⟨s, hs⟩
          rw [hmi] at hs
          cases hs
        · intro h
          exact absurd h hcm
      · intro s w2 hm
        rw [hmi] at hm
        injection hm with h1 h2
        cases h1

/-- Witness for C1 at the example world: sets `{1,2}` and `{2,3}`. -/
theorem c1_merge_succeeds_iff_can_merge_witness :
    (w0.inv ∧ w0.sets 0 = some fsA ∧ w0.sets 1 = some fsB ∧ w0.sets 2 = none ∧
     fsA.formats ≠ [] ∧ fsB.formats ≠ [] ∧
     0 < fsA.refcount ∧ 0 < fsB.refcount) ∧
    (((∃ s, (ff_merge_formats w0 0 1 2 true).1 = MergeRet.success s) ↔
       ff_can_merge_formats fsA fsB = true) ∧
     (∀ s w2, ff_merge_formats w0 0 1 2 true = (.success s, w2) →
       ∃ fsv, w2.sets s = some fsv ∧
         ∀ x : Int, x ∈ fsv.formats ↔ (x ∈ fsA.formats ∧ x ∈ fsB.formats))) :=
  ⟨⟨w0_inv, rfl, rfl, rfl, by decide, by decide, by decide, by decide⟩,
   c1_merge_succeeds_iff_can_merge w0 0 1 2 fsA fsB w0_inv rfl rfl rfl
     (by decide) (by decide) (by decide) (by decide)⟩

/-- C3: after any successful merge, every backpointer slot that pointed at
`a` or at `b` before the call points at the single surviving set, and the
surviving set's refcount is the sum of the two original refcounts (just the
original refcount when `a` and `b` were the same object). -/
theorem c3_referential_atomicity (w : World) (a b c : Nat)
    (fa fb : AVFilterFormats) (hinv : w.inv)
    (ha : w.sets a = some fa) (hb : w.sets b = some fb) (hc : w.sets c = none)
    (hra : 0 < fa.refcount) (hrb : 0 < fb.refcount) :
    ∀ s w2, ff_merge_formats w a b c true = (.success s, w2) →
      (∀ t, (w.slots t = some a ∨ w.slots t = some b) → w2.slots t = some s) ∧
      (∃ fsv, w2.sets s = some fsv ∧
        fsv.refcount =
          if a = b then fa.refcount else fa.refcount + fb.refcount) := by
  intro s w2 hm
  by_cases hab : a = b
  · subst hab
    rw [merge_self] at hm
    injection hm with h1 h2
    injection h1 with h1
    subst h1
    subst h2
    constructor
    · intro t ht
      rcases ht with h | h <;> exact h
    · exact ⟨fa, ha, by simp⟩
  · have hcm : ff_can_merge_formats fa fb = true := by
      by_contra hcm
      have hempty : (intersectFormats fa fb).isEmpty = true := by
        simpa [ff_can_merge_formats] using hcm
      rw [merge_incompat c true hab ha hb hempty] at hm
      injection hm with h1 h2
      cases h1
    obtain ⟨s0, w20, hm0, fsv, hsets, hfmt, hrc2, hslots⟩ :=
      merge_success_char ha hb hc hab hcm (inv_points_mem hinv ha)
        (inv_points_mem hinv hb)
    rw [hm0] at hm
    injection hm with h1 h2
    injection h1 with h1
    subst h1
    subst h2
    exact ⟨hslots, fsv, hsets, by simp [hab, hrc2]⟩

/-- Witness for C3 at the example world: both slots end up at the fresh
surviving set. -/
theorem c3_referential_atomicity_witness :
    (w0.inv ∧ w0.sets 0 = some fsA ∧ w0.sets 1 = some fsB ∧ w0.sets 2 = none ∧
     0 < fsA.refcount ∧ 0 < fsB.refcount) ∧
    (∀ s w2, ff_merge_formats w0 0 1 2 true = (.success s, w2) →
      (∀ t, (w0.slots t = some 0 ∨ w0.slots t = some 1) →
        w2.slots t = some s) ∧
      (∃ fsv, w2.sets s = some fsv ∧
        fsv.refcount =
          if (0 : Nat) = 1 then fsA.refcount
          else fsA.refcount + fsB.refcount)) :=
  ⟨⟨w0_inv, rfl, rfl, rfl, by decide, by decide⟩,
   c3_referential_atomicity w0 0 1 2 fsA fsB w0_inv rfl rfl rfl
     (by decide) (by decide)⟩

lemma intersect_nil_comm (fa fb : AVFilterFormats) :
    intersectFormats fa fb = [] ↔ intersectFormats fb fa = [] := by
  simp only [List.eq_nil_iff_forall_not_mem, mem_intersectFormats]
  constructor
  · intro h x hx
    exact h x ⟨hx.2, hx.1⟩
  · intro h x hx
    exact h x ⟨hx.2, hx.1⟩

lemma can_merge_comm (fa fb : AVFilterFormats) :
    ff_can_merge_formats fa fb = true ↔ ff_can_merge_formats fb fa = true := by
  simp only [ff_can_merge_formats, Bool.not_eq_true', List.isEmpty_eq_false,
    ne_eq]
  rw [not_iff_not]
  exact intersect_nil_comm fa fb

/-- C7: merge is commutative up to object identity: when the sets can merge,
the values held by the surviving set of `merge(a,b)` and the values held by
the surviving set of `merge(b,a)` are the same collection of formats, even
though the surviving identifier may differ. -/
theorem c7_merge_commutative (w : World) (a b c : Nat)
    (fa fb : AVFilterFormats) (hinv : w.inv)
    (ha : w.sets a = some fa) (hb : w.sets b = some fb) (hc : w.sets c = none)
    (hcm : ff_can_merge_formats fa fb = true) :
    ∃ s1 w1 s2 w2 fs1 fs2,
      ff_merge_formats w a b c true = (.success s1, w1) ∧
      ff_merge_formats w b a c true = (.success s2, w2) ∧
      w1.sets s1 = some fs1 ∧ w2.sets s2 = some fs2 ∧
      ∀ x : Int, x ∈ fs1.formats ↔ x ∈ fs2.formats := by
  by_cases hab : a = b
  · subst hab
    refine ⟨a, w, a, w, fa, fa, ?_, ?_, ha, ha, fun x => Iff.rfl⟩ <;>
      rw [merge_self]
  · obtain ⟨s1, w1, hm1, fs1, hsets1, hfmt1, _, _⟩ :=
      merge_success_char ha hb hc hab hcm (inv_points_mem hinv ha)
        (inv_points_mem hinv hb)
    obtain ⟨s2, w2, hm2, fs2, hsets2, hfmt2, _, _⟩ :=
      merge_success_char hb ha hc (Ne.symm hab) ((can_merge_comm fa fb).1 hcm)
        (inv_points_mem hinv hb) (inv_points_mem hinv ha)
    refine ⟨s1, w1, s2, w2, fs1, fs2, hm1, hm2, hsets1, hsets2, ?_⟩
    intro x
    rw [hfmt1, hfmt2, mem_intersectFormats, mem_intersectFormats, and_comm]

/-- Witness for C7 at the example world, in both argument orders. -/
theorem c7_merge_commutative_witness :
    (w0.inv ∧ w0.sets 0 = some fsA ∧ w0.sets 1 = some fsB ∧ w0.sets 2 = none ∧
     ff_can_merge_formats fsA fsB = true) ∧
    (∃ s1 w1 s2 w2 fs1 fs2,
      ff_merge_formats w0 0 1 2 true = (.success s1, w1) ∧
      ff_merge_formats w0 1 0 2 true = (.success s2, w2) ∧
      w1.sets s1 = some fs1 ∧ w2.sets s2 = some fs2 ∧
      ∀ x : Int, x ∈ fs1.formats ↔ x ∈ fs2.formats) :=
  ⟨⟨w0_inv, rfl, rfl, rfl, by decide⟩,
   c7_merge_commutative w0 0 1 2 fsA fsB w0_inv rfl rfl rfl (by decide)⟩

/-- Witness for C2: with allocation failing and neither operand reusable, the
merge of the example world reports failure and the world is untouched. -/
theorem c2_no_mutation_on_failure_witness :
    ((ff_merge_formats w0 0 1 2 false).1 = MergeRet.incompatible ∨
     (ff_merge_formats w0 0 1 2 false).1 = MergeRet.allocFail) ∧
    ((∀ j, (ff_merge_formats w0 0 1 2 false).2.sets j = w0.sets j) ∧
     (∀ t, (ff_merge_formats w0 0 1 2 false).2.slots t = w0.slots t)) :=
  ⟨Or.inr (by decide),
   c2_no_mutation_on_failure w0 0 1 2 false (Or.inr (by decide))⟩

/-- C8: removing a reference is a no-op on a null slot; otherwise it removes
the slot's entry from the referenced set's registry, decrements the refcount,
frees the set when the refcount reaches 0, always leaves the slot null, and
after a free no slot anywhere still points at the freed set. -/
theorem c8_remove_reference (w : World) (hinv : w.inv) (t : Nat) :
    (w.slots t = none → ff_formats_unref w t = w) ∧
    (∀ f fs, w.slots t = some f → w.sets f = some fs →
      (ff_formats_unref w t).slots t = none ∧
      (ff_formats_unref w t).sets f =
        (if fs.refcount - 1 = 0 then none
         else some ⟨fs.formats, fs.refcount - 1, fs.refs.erase t⟩) ∧
      ((ff_formats_unref w t).sets f = none →
        ∀ u, (ff_formats_unref w t).slots u ≠ some f)) := by
  constructor
  · intro h
    simp [ff_formats_unref, h]
  · intro f fs hslot hset
    obtain ⟨hrc, hnd, hpt⟩ := hinv.1 f fs hset
    have htmem : t ∈ fs.refs := inv_points_mem hinv hset t hslot
    have hsets : ∀ j, (ff_formats_unref w t).sets j =
        if j = f then
          (if fs.refcount - 1 = 0 then none
           else some ⟨fs.formats, fs.refcount - 1, fs.refs.erase t⟩)
        else w.sets j := by
      intro j
      simp only [ff_formats_unref, hslot, hset, World.setSet, World.setSlot]
    have hslots : ∀ u, (ff_formats_unref w t).slots u =
        if u = t then none else w.slots u := by
      intro u
      simp only [ff_formats_unref, hslot, hset, World.setSet, World.setSlot]
    refine ⟨?_, ?_, ?_⟩
    · rw [hslots t]
      simp
    · rw [hsets f]
      simp
    · intro hfree u
      rw [hslots u]
      by_cases hu : u = t
      · simp [hu]
      · simp only [hu, if_false]
        intro hcontra
        have humem : u ∈ fs.refs := inv_points_mem hinv hset u hcontra
        rw [hsets f] at hfree
        simp only [if_pos rfl] at hfree
        have h0 : fs.refcount - 1 = 0 := by
          by_contra h0
          simp [h0] at hfree
        have hlen1 : fs.refs.length = 1 := by
          have hpos : 0 < fs.refs.length := List.length_pos.2 (by
            intro hnil
            rw [hnil] at htmem
            cases htmem)
          omega
        obtain ⟨a, hae⟩ := List.length_eq_one.1 hlen1
        rw [hae] at htmem humem
        simp at htmem humem
        exact hu (humem.trans htmem.symm)

/-- Witness for C8 at the example world: un-referencing slot 0 frees set 0
(its only reference) and nulls the slot. -/
theorem c8_remove_reference_witness :
    w0.inv ∧
    ((w0.slots 0 = none → ff_formats_unref w0 0 = w0) ∧
     (∀ f fs, w0.slots 0 = some f → w0.sets f = some fs →
       (ff_formats_unref w0 0).slots 0 = none ∧
       (ff_formats_unref w0 0).sets f =
         (if fs.refcount - 1 = 0 then none
          else some ⟨fs.formats, fs.refcount - 1, fs.refs.erase 0⟩) ∧
       ((ff_formats_unref w0 0).sets f = none →
         ∀ u, (ff_formats_unref w0 0).slots u ≠ some f))) :=
  ⟨w0_inv, c8_remove_reference w0 w0_inv 0⟩

/-- C9: changing a reference copies the old slot's pointer into the new slot,
clears the old slot, replaces the registry entry for the old slot by the new
slot, and leaves everything else unchanged: the set's value collection and
refcount, every other set, and the contents of every other slot. -/
theorem c9_change_reference (w : World) (o n f : Nat) (fs : AVFilterFormats)
    (hslot : w.slots o = some f) (hset : w.sets f = some fs) (hon : o ≠ n) :
    (ff_formats_changeref w o n).slots n = some f ∧
    (ff_formats_changeref w o n).slots o = none ∧
    (ff_formats_changeref w o n).sets f =
      some ⟨fs.formats, fs.refcount,
        fs.refs.map (fun t => if t = o then n else t)⟩ ∧
    (∀ j, j ≠ f → (ff_formats_changeref w o n).sets j = w.sets j) ∧
    (∀ t, t ≠ o → t ≠ n → (ff_formats_changeref w o n).slots t = w.slots t) := by
  refine ⟨?_, ?_, ?_, ?_, ?_⟩
  · simp [ff_formats_changeref, hslot, hset, World.setSet, World.setSlot,
      Ne.symm hon]
  · simp [ff_formats_changeref, hslot, hset, World.setSet, World.setSlot]
  · simp [ff_formats_changeref, hslot, hset, World.setSet, World.setSlot]
  · intro j hj
    simp [ff_formats_changeref, hslot, hset, World.setSet, World.setSlot, hj]
  · intro t hto htn
    simp [ff_formats_changeref, hslot, hset, World.setSet, World.setSlot,
      hto, htn]

/-- Witness for C9 at the example world: moving slot 0's reference into the
fresh slot 2. -/
theorem c9_change_reference_witness :
    (w0.slots 0 = some 0 ∧ w0.sets 0 = some fsA ∧ (0 : Nat) ≠ 2) ∧
    ((ff_formats_changeref w0 0 2).slots 2 = some 0 ∧
     (ff_formats_changeref w0 0 2).slots 0 = none ∧
     (ff_formats_changeref w0 0 2).sets 0 =
       some ⟨fsA.formats, fsA.refcount,
         fsA.refs.map (fun t => if t = 0 then 2 else t)⟩ ∧
     (∀ j, j ≠ 0 → (ff_formats_changeref w0 0 2).sets j = w0.sets j) ∧
     (∀ t, t ≠ 0 → t ≠ 2 → (ff_formats_changeref w0 0 2).slots t = w0.slots t)) :=
  ⟨⟨rfl, rfl, by decide⟩,
   c9_change_reference w0 0 2 0 fsA rfl rfl (by decide)⟩

/-- C5: every channel-layout set produced or preserved by the core's
operations satisfies the documented flag invariant: `all_layouts = 1` forces
an empty explicit list, and `all_counts = 1` forces `all_layouts = 1` (hence
an empty list).  The constructors establish it, adding to an explicit
(non-wildcard) set keeps it, and a successful merge of two invariant sets
yields an invariant set. -/
theorem c5_channel_layouts_invariant :
    layoutsInv ff_all_channel_layouts ∧
    layoutsInv ff_all_channel_counts ∧
    (∀ fmts, layoutsInv (ff_make_format64_list fmts)) ∧
    (∀ layout, layoutsInv (ff_add_channel_layout none layout)) ∧
    (∀ cl layout, layoutsInv cl → cl.all_layouts = false →
      layoutsInv (ff_add_channel_layout (some cl) layout)) ∧
    (∀ a b m, layoutsInv a → layoutsInv b →
      ff_merge_channel_layouts a b = some m → layoutsInv m) := by
  refine ⟨?_, ?_, ?_, ?_, ?_, ?_⟩
  · exact ⟨fun _ => rfl, fun h => nomatch h⟩
  · exact ⟨fun _ => rfl, fun _ => ⟨rfl, rfl⟩⟩
  · intro fmts
    exact ⟨fun h => (nomatch h), fun h => nomatch h⟩
  · intro layout
    exact ⟨fun h => (nomatch h), fun h => nomatch h⟩
  · intro cl layout hinv hfl
    constructor
    · intro h
      rw [show (ff_add_channel_layout (some cl) layout).all_layouts =
          cl.all_layouts from rfl, hfl] at h
      cases h
    · intro h
      rw [show (ff_add_channel_layout (some cl) layout).all_counts =
          cl.all_counts from rfl] at h
      rw [(hinv.2 h).1] at hfl
      cases hfl
  · intro a b m hia hib hm
    simp only [ff_merge_channel_layouts] at hm
    split_ifs at hm with hcond
    · injection hm with hm
      subst hm
      constructor
      · intro h
        simp only at h
        rw [Bool.and_eq_true] at h
        have ha0 := hia.1 h.1
        have hb0 := hib.1 h.2
        simp [ha0, hb0]
      · intro h
        simp only at h
        rw [Bool.and_eq_true] at h
        obtain ⟨ha1, ha0⟩ := hia.2 h.1
        obtain ⟨hb1, hb0⟩ := hib.2 h.2
        constructor
        · simp [ha1, hb1]
        · simp [ha0, hb0]

/-- Witness for C5: merging the any-count wildcard with the explicit set
containing only the encoded count 2 yields the explicit set, which satisfies
the invariant. -/
theorem c5_channel_layouts_invariant_witness :
    (layoutsInv ff_all_channel_counts ∧
     layoutsInv (ff_make_format64_list [FF_COUNT2LAYOUT 2]) ∧
     ff_merge_channel_layouts ff_all_channel_counts
       (ff_make_format64_list [FF_COUNT2LAYOUT 2]) =
       some ⟨[FF_COUNT2LAYOUT 2], false, false, 0, []⟩) ∧
    layoutsInv (⟨[FF_COUNT2LAYOUT 2], false, false, 0, []⟩ :
      AVFilterChannelLayouts) :=
  ⟨⟨by decide, by decide, by decide⟩,
   c5_channel_layouts_invariant.2.2.2.2.2 ff_all_channel_counts
     (ff_make_format64_list [FF_COUNT2LAYOUT 2]) _ (by decide) (by decide)
     (by decide)⟩

lemma inv_ref {w : World} (hinv : w.inv) (f t : Nat) (ok : Bool)
    (ht : w.slots t = none) : ((ff_formats_ref w f t ok).2).inv := by
  cases hf : w.sets f with
  | none =>
    simpa [ff_formats_ref, hf] using hinv
  | some fs =>
    cases ok with
    | false => simpa [ff_formats_ref, hf] using hinv
    | true =>
      obtain ⟨hrc, hnd, hpt⟩ := hinv.1 f fs hf
      have htnotin : ∀ j fsj, w.sets j = some fsj → t ∉ fsj.refs := by
        intro j fsj hj hmem
        rw [(hinv.1 j fsj hj).2.2 t hmem] at ht
        cases ht
      have hsets : ∀ j, ((ff_formats_ref w f t true).2).sets j =
          if j = f then some ⟨fs.formats, fs.refcount + 1, fs.refs ++ [t]⟩
          else w.sets j := by
        intro j
        simp [ff_formats_ref, hf, World.setSet, World.setSlot]
      have hslots : ∀ u, ((ff_formats_ref w f t true).2).slots u =
          if u = t then some f else w.slots u := by
        intro u
        simp [ff_formats_ref, hf, World.setSet, World.setSlot]
      constructor
      · intro j fsj hj
        rw [hsets j] at hj
        by_cases hjf : j = f
        · rw [if_pos hjf] at hj
          injection hj with hj
          subst hj
          refine ⟨by simp [hrc], ?_, ?_⟩
          · refine List.nodup_append.2 ⟨hnd, by simp, ?_⟩
            intro u hu
            simp only [List.mem_singleton]
            intro hut
            subst hut
            exact htnotin f fs hf hu
          · intro u hu
            rw [hslots u]
            rcases List.mem_append.1 hu with h | h
            · have hut : u ≠ t := by
                intro hut
                subst hut
                exact htnotin f fs hf h
              rw [if_neg hut, hpt u h, hjf]
            · simp only [List.mem_singleton] at h
              subst h
              simp [hjf]
        · rw [if_neg hjf] at hj
          obtain ⟨hrcj, hndj, hptj⟩ := hinv.1 j fsj hj
          refine ⟨hrcj, hndj, ?_⟩
          intro u hu
          rw [hslots u]
          have hut : u ≠ t := by
            intro hut
            subst hut
            exact htnotin j fsj hj hu
          rw [if_neg hut]
          exact hptj u hu
      · intro u i hu
        rw [hslots u] at hu
        by_cases hut : u = t
        · rw [if_pos hut] at hu
          injection hu with hu
          subst hu
          refine ⟨⟨fs.formats, fs.refcount + 1, fs.refs ++ [t]⟩, ?_, ?_⟩
          · rw [hsets f]
            simp
          · subst hut
            simp
        · rw [if_neg hut] at hu
          obtain ⟨fsi, hfsi, humem⟩ := hinv.2 u i hu
          by_cases hif : i = f
          · subst hif
            rw [hf] at hfsi
            injection hfsi with hfsi
            subst hfsi
            refine ⟨⟨fs.formats, fs.refcount + 1, fs.refs ++ [t]⟩, ?_, ?_⟩
            · rw [hsets i]
              simp
            · exact List.mem_append.2 (Or.inl humem)
          · refine ⟨fsi, ?_, humem⟩
            rw [hsets i]
            rw [if_neg hif]
            exact hfsi

lemma inv_unref {w : World} (hinv : w.inv) (t : Nat) :
    (ff_formats_unref w t).inv := by
  cases hslot : w.slots t with
  | none => simpa [ff_formats_unref, hslot] using hinv
  | some f =>
    obtain ⟨fs, hf, htmem⟩ := hinv.2 t f hslot
    obtain ⟨hrc, hnd, hpt⟩ := hinv.1 f fs hf
    have hsets : ∀ j, (ff_formats_unref w t).sets j =
        if j = f then
          (if fs.refcount - 1 = 0 then none
           else some ⟨fs.formats, fs.refcount - 1, fs.refs.erase t⟩)
        else w.sets j := by
      intro j
      simp only [ff_formats_unref, hslot, hf, World.setSet, World.setSlot]
    have hslots : ∀ u, (ff_formats_unref w t).slots u =
        if u = t then none else w.slots u := by
      intro u
      simp only [ff_formats_unref, hslot, hf, World.setSet, World.setSlot]
    constructor
    · intro j fsj hj
      rw [hsets j] at hj
      by_cases hjf : j = f
      · rw [if_pos hjf] at hj
        by_cases h0 : fs.refcount - 1 = 0
        · rw [if_pos h0] at hj
          cases hj
        · rw [if_neg h0] at hj
          injection hj with hj
          subst hj
          refine ⟨?_, List.Nodup.erase t hnd, ?_⟩
          · simp only
            rw [List.length_erase_of_mem htmem, hrc]
          · intro u hu
            have hu2 := (List.Nodup.mem_erase_iff hnd).1 hu
            rw [hslots u, if_neg hu2.1, hpt u hu2.2, hjf]
      · rw [if_neg hjf] at hj
        obtain ⟨hrcj, hndj, hptj⟩ := hinv.1 j fsj hj
        refine ⟨hrcj, hndj, ?_⟩
        intro u hu
        have hut : u ≠ t := by
          intro hut
          subst hut
          rw [hptj u hu] at hslot
          exact hjf (Option.some.inj hslot)
        rw [hslots u, if_neg hut]
        exact hptj u hu
    · intro u i hu
      rw [hslots u] at hu
      by_cases hut : u = t
      · rw [if_pos hut] at hu
        cases hu
      · rw [if_neg hut] at hu
        obtain ⟨fsi, hfsi, humem⟩ := hinv.2 u i hu
        by_cases hif : i = f
        · subst hif
          rw [hf] at hfsi
          injection hfsi with hfsi
          subst hfsi
          have h0 : ¬ fs.refcount - 1 = 0 := by
            intro h0
            have hlen1 : fs.refs.length = 1 := by
              have hpos : 0 < fs.refs.length := List.length_pos.2 (by
                intro hnil
                rw [hnil] at htmem
                cases htmem)
              omega
            obtain ⟨a, hae⟩ := List.length_eq_one.1 hlen1
            rw [hae] at htmem humem
            simp at htmem humem
            exact hut (humem.trans htmem.symm)
          refine ⟨⟨fs.formats, fs.refcount - 1, fs.refs.erase t⟩, ?_, ?_⟩
          · rw [hsets i]
            simp [h0]
          · exact (List.Nodup.mem_erase_iff hnd).2 ⟨hut, humem⟩
        · refine ⟨fsi, ?_, humem⟩
          rw [hsets i, if_neg hif]
          exact hfsi

lemma inv_changeref {w : World} (hinv : w.inv) (o n : Nat) (hon : o ≠ n)
    (hn : w.slots n = none) : (ff_formats_changeref w o n).inv := by
  cases hslot : w.slots o with
  | none => simpa [ff_formats_changeref, hslot] using hinv
  | some f =>
    obtain ⟨fs, hf, homem⟩ := hinv.2 o f hslot
    obtain ⟨hrc, hnd, hpt⟩ := hinv.1 f fs hf
    have hnnotin : ∀ j fsj, w.sets j = some fsj → n ∉ fsj.refs := by
      intro j fsj hj hmem
      rw [(hinv.1 j fsj hj).2.2 n hmem] at hn
      cases hn
    have hsets : ∀ j, (ff_formats_changeref w o n).sets j =
        if j = f then
          some ⟨fs.formats, fs.refcount,
            fs.refs.map (fun u => if u = o then n else u)⟩
        else w.sets j := by
      intro j
      simp only [ff_formats_changeref, hslot, hf, World.setSet, World.setSlot]
    have hslots : ∀ u, (ff_formats_changeref w o n).slots u =
        if u = o then none else if u = n then some f else w.slots u := by
      intro u
      simp only [ff_formats_changeref, hslot, hf, World.setSet, World.setSlot]
    constructor
    · intro j fsj hj
      rw [hsets j] at hj
      by_cases hjf : j = f
      · rw [if_pos hjf] at hj
        injection hj with hj
        subst hj
        refine ⟨by simp [hrc], ?_, ?_⟩
        · refine List.Nodup.map_on ?_ hnd
          intro x hx y hy hxy
          by_cases hxo : x = o
          · by_cases hyo : y = o
            · rw [hxo, hyo]
            · rw [if_pos hxo, if_neg hyo] at hxy
              subst hxy
              exact absurd hy (hnnotin f fs hf)
          · by_cases hyo : y = o
            · rw [if_neg hxo, if_pos hyo] at hxy
              subst hxy
              exact absurd hx (hnnotin f fs hf)
            · rwa [if_neg hxo, if_neg hyo] at hxy
        · intro u hu
          obtain ⟨v, hv, hvu⟩ := List.mem_map.1 hu
          rw [hslots u]
          by_cases hvo : v = o
          · rw [if_pos hvo] at hvu
            subst hvu
            rw [if_neg (Ne.symm hon), if_pos rfl, hjf]
          · rw [if_neg hvo] at hvu
            subst hvu
            have hvn : v ≠ n := fun h => hnnotin f fs hf (h ▸ hv)
            rw [if_neg hvo, if_neg hvn, hpt v hv, hjf]
      · rw [if_neg hjf] at hj
        obtain ⟨hrcj, hndj, hptj⟩ := hinv.1 j fsj hj
        refine ⟨hrcj, hndj, ?_⟩
        intro u hu
        have huo : u ≠ o := by
          intro huo
          subst huo
          rw [hptj u hu] at hslot
          exact hjf (Option.some.inj hslot)
        have hun : u ≠ n := fun h => hnnotin j fsj hj (h ▸ hu)
        rw [hslots u, if_neg huo, if_neg hun]
        exact hptj u hu
    · intro u i hu
      rw [hslots u] at hu
      by_cases huo : u = o
      · rw [if_pos huo] at hu
        cases hu
      · rw [if_neg huo] at hu
        by_cases hun : u = n
        · rw [if_pos hun] at hu
          injection hu with hu
          subst hu
          refine ⟨⟨fs.formats, fs.refcount,
            fs.refs.map (fun v => if v = o then n else v)⟩, ?_, ?_⟩
          · rw [hsets f]
            simp
          · subst hun
            exact List.mem_map.2 ⟨o, homem, by simp⟩
        · rw [if_neg hun] at hu
          obtain ⟨fsi, hfsi, humem⟩ := hinv.2 u i hu
          by_cases hif : i = f
          · subst hif
            rw [hf] at hfsi
            injection hfsi with hfsi
            subst hfsi
            refine ⟨⟨fs.formats, fs.refcount,
              fs.refs.map (fun v => if v = o then n else v)⟩, ?_, ?_⟩
            · rw [hsets i]
              simp
            · exact List.mem_map.2 ⟨u, humem, by simp [huo]⟩
          · refine ⟨fsi, ?_, humem⟩
            rw [hsets i, if_neg hif]
            exact hfsi

lemma inv_new_set {w : World} (hinv : w.inv) (c : Nat) (hc : w.sets c = none)
    (xs : List Int) : (w.setSet c (some ⟨xs, 0, []⟩)).inv := by
  constructor
  · intro j fsj hj
    simp only [World.setSet] at hj
    by_cases hjc : j = c
    · rw [if_pos hjc] at hj
      injection hj with hj
      subst hj
      exact ⟨rfl, by simp, fun t ht => absurd ht (by simp)⟩
    · rw [if_neg hjc] at hj
      obtain ⟨hrcj, hndj, hptj⟩ := hinv.1 j fsj hj
      exact ⟨hrcj, hndj, fun t ht => hptj t ht⟩
  · intro t i ht
    obtain ⟨fsi, hfsi, htmem⟩ := hinv.2 t i ht
    have hic : i ≠ c := by
      intro h
      rw [h, hc] at hfsi
      cases hfsi
    refine ⟨fsi, ?_, htmem⟩
    simp only [World.setSet, if_neg hic]
    exact hfsi

lemma inv_merge {w : World} (hinv : w.inv) (a b c : Nat) (ok : Bool)
    (hc : w.sets c = none) : ((ff_merge_formats w a b c ok).2).inv := by
  by_cases hab : a = b
  · subst hab
    rw [merge_self]
    exact hinv
  · cases hA : w.sets a with
    | none => simpa [ff_merge_formats, hab, hA] using hinv
    | some fa =>
      cases hB : w.sets b with
      | none => simpa [ff_merge_formats, hab, hA, hB] using hinv
      | some fb =>
        have hac : a ≠ c := by
          intro h
          rw [h, hc] at hA
          cases hA
        have hbc : b ≠ c := by
          intro h
          rw [h, hc] at hB
          cases hB
        by_cases hempty : (intersectFormats fa fb).isEmpty = true
        · rw [merge_incompat c ok hab hA hB hempty]
          exact hinv
        · by_cases hIa : intersectFormats fa fb = fa.formats
          · have hfa : fa.formats ≠ [] := by
              rw [← hIa]
              intro h
              exact hempty (List.isEmpty_iff.2 h)
            rw [merge_reuse_a c ok hab hA hB hIa hfa]
            exact inv_retarget_free hinv hB hA (Ne.symm hab)
          · by_cases hIb : intersectFormats fa fb = fb.formats
            · have hfb : fb.formats ≠ [] := by
                rw [← hIb]
                intro h
                exact hempty (List.isEmpty_iff.2 h)
              rw [merge_reuse_b c ok hab hA hB hIa hIb hfb]
              exact inv_retarget_free hinv hA hB hab
            · cases ok with
              | false =>
                rw [merge_alloc_fail c hab hA hB hempty hIa hIb]
                exact hinv
              | true =>
                rw [merge_fresh c hab hA hB hempty hIa hIb]
                have hinv1 := inv_new_set hinv c hc (intersectFormats fa fb)
                have h1a : (w.setSet c
                    (some ⟨intersectFormats fa fb, 0, []⟩)).sets a = some fa := by
                  simp [World.setSet, hac, hA]
                have h1c : (w.setSet c
                    (some ⟨intersectFormats fa fb, 0, []⟩)).sets c =
                    some ⟨intersectFormats fa fb, 0, []⟩ := by
                  simp [World.setSet]
                have hinv2 := inv_retarget_free hinv1 h1a h1c hac
                have hmb : (freeSet (retarget_all (w.setSet c
                    (some ⟨intersectFormats fa fb, 0, []⟩)) a c) a).sets b =
                    some fb := by
                  rw [retarget_free_sets h1a h1c b]
                  simp [Ne.symm hab, hbc, World.setSet, hB]
                have hmc : (freeSet (retarget_all (w.setSet c
                    (some ⟨intersectFormats fa fb, 0, []⟩)) a c) a).sets c =
                    some ⟨intersectFormats fa fb, 0 + fa.refcount,
                      [] ++ fa.refs⟩ := by
                  rw [retarget_free_sets h1a h1c c]
                  simp [Ne.symm hac]
                exact inv_retarget_free hinv2 hmb hmc hbc

/-- C4: in a well-formed world, for every live format set the refcount equals
the number of entries in its refs registry and every registered slot
currently points at that set; and each operation — add-reference (on a null
slot), remove-reference, change-reference (to a fresh null slot) and merge
(with a fresh identifier for a possible new set) — preserves the full
reference-tracking invariant. -/
theorem c4_refcount_invariant (w : World) (hinv : w.inv) :
    (∀ i fs, w.sets i = some fs →
      fs.refcount = fs.refs.length ∧ ∀ t, t ∈ fs.refs → w.slots t = some i) ∧
    (∀ f t ok, w.slots t = none → ((ff_formats_ref w f t ok).2).inv) ∧
    (∀ t, (ff_formats_unref w t).inv) ∧
    (∀ o n, o ≠ n → w.slots n = none → (ff_formats_changeref w o n).inv) ∧
    (∀ a b c ok, w.sets c = none → ((ff_merge_formats w a b c ok).2).inv) := by
  refine ⟨?_, ?_, ?_, ?_, ?_⟩
  · intro i fs hi
    obtain ⟨hrc, _, hpt⟩ := hinv.1 i fs hi
    exact ⟨hrc, hpt⟩
  · intro f t ok ht
    exact inv_ref hinv f t ok ht
  · intro t
    exact inv_unref hinv t
  · intro o n hon hn
    exact inv_changeref hinv o n hon hn
  · intro a b c ok hc
    exact inv_merge hinv a b c ok hc

/-- Witness for C4 at the example world. -/
theorem c4_refcount_invariant_witness :
    w0.inv ∧
    ((∀ i fs, w0.sets i = some fs →
       fs.refcount = fs.refs.length ∧ ∀ t, t ∈ fs.refs → w0.slots t = some i) ∧
     (∀ f t ok, w0.slots t = none → ((ff_formats_ref w0 f t ok).2).inv) ∧
     (∀ t, (ff_formats_unref w0 t).inv) ∧
     (∀ o n, o ≠ n → w0.slots n = none → (ff_formats_changeref w0 o n).inv) ∧
     (∀ a b c ok, w0.sets c = none → ((ff_merge_formats w0 a b c ok).2).inv)) :=
  ⟨w0_inv, c4_refcount_invariant w0 w0_inv⟩
